import Mathlib

set_option maxRecDepth 10000

/-!
Verification of the MirrorDock H.264 stream framer / decoder-configuration state machine.

Shallow embedding of `src/webview/h264/webcodecs-decoder.js` (class `H264Decoder`).

Modelling conventions:
* Bytes are `Nat` (all values fed in practice are `< 256`; the JS bitwise ops
  `& 0x1F`, `& 0xFF`, `>> k` are translated as `% 32`, `% 256`, `/ 2^k`, which agree
  with the JS semantics on unsigned values).
* `Uint8Array` buffers are `List Nat`; `arr[i]` (which yields `undefined`, coerced to 0,
  when out of range) is `List.getD i 0`; `slice(a, b)` is `(take b).drop a`.
* The external `VideoDecoder` engine handle is modelled as a `Bool` (present or not),
  and its `configure` / `decode` methods as append-only event traces
  (`configureCalls`, `decodeCalls`) recording exactly the data the engine is handed;
  the engine is assumed available and not to throw (canvas/rendering is out of scope).
* `console.warn` on buffer overflow is modelled by the `warned` flag,
  and each `handleNalUnit` invocation is recorded in the `handledUnits` trace
  (the ordered sequence of classified NAL units, mirroring `nalCount++`).
-/

namespace H264Decoder

/-- The per-index match test of `findNalStart`'s loop body: at index `i` the JS code
returns `i` when `buf[i] == 0 && buf[i+1] == 0` and either `buf[i+2] == 1`
(3-byte start code) or `i < buf.length - 4 && buf[i+2] == 0 && buf[i+3] == 1`
(4-byte start code). -/
def nalMatchAt (buf : List Nat) (i : Nat) : Bool :=
  buf.getD i 0 == 0 && buf.getD (i+1) 0 == 0 &&
    (buf.getD (i+2) 0 == 1 ||
      (decide (i + 5 ≤ buf.length) && buf.getD (i+2) 0 == 0 && buf.getD (i+3) 0 == 1))

/-- `findNalStart(fromIndex)`: the JS `for (let i = fromIndex; i < buffer.length - 3; i++)`
loop returning the first index whose bytes match a start code, `-1` (here `none`)
otherwise. -/
def findNalStart (buf : List Nat) (fromIndex : Nat) : Option Nat :=
  (List.range' fromIndex (buf.length - 3 - fromIndex)).find? (nalMatchAt buf)

/-- The decoder's mutable fields (`this.…` in the JS class), plus event traces for the
external calls: `configureCalls` records each `videoDecoder.configure` description,
`decodeCalls` each `videoDecoder.decode` chunk as (isKeyFrame, avccData),
`handledUnits` each NAL unit passed to `handleNalUnit`, `warned` the overflow warning. -/
structure DecoderState where
  isInitialized : Bool
  videoDecoder : Bool
  isConfigured : Bool
  sps : Option (List Nat)
  pps : Option (List Nat)
  buffer : List Nat
  frameCount : Nat
  nalCount : Nat
  decodedFrames : Nat
  configureCalls : List (List Nat)
  decodeCalls : List (Bool × List Nat)
  handledUnits : List (List Nat)
  warned : Bool
deriving Repr, DecidableEq

/-- The constructor state of `H264Decoder` (all counters 0, empty buffer, no engine). -/
def initState : DecoderState :=
  { isInitialized := false, videoDecoder := false, isConfigured := false,
    sps := none, pps := none, buffer := [],
    frameCount := 0, nalCount := 0, decodedFrames := 0,
    configureCalls := [], decodeCalls := [], handledUnits := [], warned := false }

/-- `init(canvas)`: sets `isInitialized` and (via `initDecoder`) creates the
`VideoDecoder` handle.  Canvas bookkeeping is external and not modelled; the WebCodecs
API is assumed available, so `initDecoder` succeeds. -/
def init (st : DecoderState) : DecoderState :=
  { st with isInitialized := true, videoDecoder := true }

/-- Start-code length detection used by `handleNalUnit` and `configureDecoder`:
`nalUnit[2] === 0x01 ? 3 : 4`. -/
def unitStartCodeLen (u : List Nat) : Nat :=
  if u.getD 2 0 == 1 then 3 else 4

/-- NAL type extraction: `nalUnit[startCodeLen] & 0x1F`. -/
def unitType (u : List Nat) : Nat :=
  u.getD (unitStartCodeLen u) 0 % 32

/-- The avcC record built by `configureDecoder` from the start-code-stripped SPS and
PPS payloads.  The JS fills a fresh zeroed `Uint8Array(11 + sps.length + pps.length)`
strictly left to right (8 header bytes, SPS, 3 bytes, PPS — exactly 11+s+p bytes), so
the sequential writes are faithfully rendered as list concatenation.  Out-of-range
reads `spsData[1..3]` on a short SPS store 0, matching `getD _ 0`. -/
def buildAvcC (spsData ppsData : List Nat) : List Nat :=
  [1, spsData.getD 1 0, spsData.getD 2 0, spsData.getD 3 0, 0xFF, 0xE1,
   spsData.length / 256 % 256, spsData.length % 256] ++ spsData ++
  [1, ppsData.length / 256 % 256, ppsData.length % 256] ++ ppsData

/-- `configureDecoder()`: returns unchanged unless SPS, PPS and the engine handle are
all present; otherwise strips the start codes, builds the avcC record, passes it to
`videoDecoder.configure` (recorded in the trace) and sets `isConfigured`.
The engine's `configure` is modelled as succeeding (the `catch` branch is not taken). -/
def configureDecoder (st : DecoderState) : DecoderState :=
  match st.sps, st.pps with
  | some sps, some pps =>
    if st.videoDecoder then
      let spsData := sps.drop (if sps.getD 2 0 == 1 then 3 else 4)
      let ppsData := pps.drop (if pps.getD 2 0 == 1 then 3 else 4)
      { st with configureCalls := st.configureCalls ++ [buildAvcC spsData ppsData],
                isConfigured := true }
    else st
  | _, _ => st

/-- The 4-byte big-endian length field written by `handleNalUnit`
(`(len >> 24) & 0xFF`, …, `len & 0xFF`). -/
def beLen4 (len : Nat) : List Nat :=
  [len / 2^24 % 256, len / 2^16 % 256, len / 2^8 % 256, len % 256]

/-- `handleNalUnit(nalUnit)`: counts the unit, extracts its type;
type 7 stores the SPS and configures if a PPS is present; type 8 symmetrically;
anything else is dropped unless configured with a live engine; types 5/1 are converted
from Annex-B to AVCC (start code stripped, 4-byte big-endian length prefixed) and
passed to `videoDecoder.decode` (recorded in the trace; the engine does not throw). -/
def handleNalUnit (st0 : DecoderState) (nalUnit : List Nat) : DecoderState :=
  let st := { st0 with nalCount := st0.nalCount + 1,
                       handledUnits := st0.handledUnits ++ [nalUnit] }
  if unitType nalUnit == 7 then
    let st1 := { st with sps := some nalUnit }
    if st1.pps.isSome then configureDecoder st1 else st1
  else if unitType nalUnit == 8 then
    let st1 := { st with pps := some nalUnit }
    if st1.sps.isSome then configureDecoder st1 else st1
  else if !st.isConfigured || !st.videoDecoder then st
  else if unitType nalUnit == 5 || unitType nalUnit == 1 then
    let nalData := nalUnit.drop (unitStartCodeLen nalUnit)
    { st with decodeCalls :=
        st.decodeCalls ++ [(unitType nalUnit == 5, beLen4 nalData.length ++ nalData)] }
  else st

/-- The `while (processed < maxIterations)` loop of `processBuffer`, with the
remaining iteration budget as fuel (`maxIterations = 100` at the call site). -/
def processLoop : Nat → DecoderState → DecoderState
  | 0, st => st
  | fuel + 1, st =>
    match findNalStart st.buffer 0 with
    | none => st
    | some startIdx =>
      match findNalStart st.buffer (startIdx + 3) with
      | none => if startIdx > 0 then { st with buffer := st.buffer.drop startIdx } else st
      | some nextIdx =>
        let nalUnit := (st.buffer.take nextIdx).drop startIdx
        let st1 := handleNalUnit st nalUnit
        processLoop fuel { st1 with buffer := st1.buffer.drop nextIdx }

/-- `processBuffer()`: the bounded scan loop followed by the 512 KiB overflow check
(`buffer = buffer.slice(-256 * 1024)` keeps only the newest 256 KiB and warns). -/
def processBuffer (st0 : DecoderState) : DecoderState :=
  let st := processLoop 100 st0
  if 512 * 1024 < st.buffer.length then
    { st with warned := true,
              buffer := st.buffer.drop (st.buffer.length - 256 * 1024) }
  else st

/-- `decode(data)`: no-op before `init`; otherwise counts the chunk, appends it to the
accumulator and runs `processBuffer` (the `onFrameReady` callback is external). -/
def decode (st : DecoderState) (data : List Nat) : DecoderState :=
  if st.isInitialized then
    processBuffer { st with frameCount := st.frameCount + 1, buffer := st.buffer ++ data }
  else st

/-- `clear()`: zeroes the counters, empties the buffer, clears the configuration pair
and flag, closes the engine handle and recreates it via `initDecoder`. -/
def clear (st : DecoderState) : DecoderState :=
  { st with frameCount := 0, decodedFrames := 0, nalCount := 0,
            buffer := [], sps := none, pps := none, isConfigured := false,
            videoDecoder := true }

/-! ## Specification-side definitions used by the claim statements -/

/-- The invariant linking the configured flag to the configuration pair:
the decoder is only ever configured when an SPS and a PPS are stored. -/
def CfgInv (st : DecoderState) : Prop :=
  st.isConfigured = true → st.sps.isSome = true ∧ st.pps.isSome = true

/-- The state after the unbounded-scan part of `processBuffer` (chunk appended,
`processLoop` run, overflow check not yet applied); used to state what the overflow
check of `processBuffer` does on top of it. -/
def midOf (st : DecoderState) (data : List Nat) : DecoderState :=
  processLoop 100 { st with frameCount := st.frameCount + 1, buffer := st.buffer ++ data }

/-- A stream of 102 complete 4-byte NAL units (type 9, ignored by the classifier),
used to exercise the 100-iteration bound of `processBuffer`. -/
def unitSeq102 : List Nat := (List.replicate 102 [0, 0, 1, 9]).flatten

/-- SPS, PPS, then the identical SPS and PPS again: a stream with exactly one
distinct (SPS,PPS) pair in which configuration units are re-sent. -/
def dupCfgStream : List Nat :=
  [0,0,1,0x67,0x42,0,0x1E, 0,0,1,0x68,0xCE, 0,0,1,0x67,0x42,0,0x1E, 0,0,1,0x68,0xCE]

/-- A start-code-delimited NAL unit, as a unit of specification for the chunking
property: a 3-byte (`four = false`) or 4-byte (`four = true`) Annex-B start code
followed by the unit body (header byte plus payload). -/
structure NalSpec where
  four : Bool
  body : List Nat
deriving Repr, DecidableEq

/-- The start-code bytes of a `NalSpec`. -/
def scBytes (u : NalSpec) : List Nat := if u.four then [0, 0, 0, 1] else [0, 0, 1]

/-- The wire bytes of a `NalSpec`: start code followed by body. -/
def unitBytes (u : NalSpec) : List Nat := scBytes u ++ u.body

/-- Well-formedness of a unit body: nonempty, no two consecutive zero bytes (so no
start-code pattern can occur inside the body), and not ending in a zero byte (so the
body cannot merge with the following unit's start code into an earlier match). -/
def wfBody (b : List Nat) : Prop :=
  b ≠ [] ∧ (∀ i < b.length - 1, ¬(b.getD i 0 = 0 ∧ b.getD (i + 1) 0 = 0)) ∧
  b.getD (b.length - 1) 0 ≠ 0

instance instDecidableWfBody (b : List Nat) : Decidable (wfBody b) :=
  inferInstanceAs (Decidable (b ≠ [] ∧
    (∀ i < b.length - 1, ¬(b.getD i 0 = 0 ∧ b.getD (i + 1) 0 = 0)) ∧
    b.getD (b.length - 1) 0 ≠ 0))

/-- The byte stream formed by concatenating a list of units. -/
def streamOf (units : List NalSpec) : List Nat := (units.map unitBytes).flatten

/-- Byte offset at which unit `t` starts within `streamOf units`. -/
def posOf : List NalSpec → Nat → Nat
  | _, 0 => 0
  | [], _ + 1 => 0
  | u :: us, t + 1 => (unitBytes u).length + posOf us t

/-- Unit `t`'s start code is fully detectable once `n` bytes of the stream have
arrived: the scanner's loop bound requires one byte beyond the start code. -/
def visAt (units : List NalSpec) (t n : Nat) : Prop :=
  t < units.length ∧
  posOf units t + (scBytes (units.getD t ⟨false, []⟩)).length + 1 ≤ n

/-- Feeding a list of chunks through `decode`, in order. -/
def feedAll (st : DecoderState) (chunks : List (List Nat)) : DecoderState :=
  chunks.foldl decode st

/-! ## Generic list and search helpers -/

theorem getD0_append_left {l₁ l₂ : List Nat} {i : Nat} (h : i < l₁.length) :
    (l₁ ++ l₂).getD i 0 = l₁.getD i 0 := by
  simp [List.getD_eq_getElem?_getD, List.getElem?_append_left h]

theorem getD0_append_right {l₁ l₂ : List Nat} {i : Nat} (h : l₁.length ≤ i) :
    (l₁ ++ l₂).getD i 0 = l₂.getD (i - l₁.length) 0 := by
  simp [List.getD_eq_getElem?_getD, List.getElem?_append_right h]

theorem getD0_take {l : List Nat} {i m : Nat} (h : i < m) :
    (l.take m).getD i 0 = l.getD i 0 := by
  simp [List.getD_eq_getElem?_getD, List.getElem?_take_of_lt h]

theorem find?_range'_none {p : Nat → Bool} {s c : Nat}
    (h : ∀ i, s ≤ i → i < s + c → p i = false) :
    (List.range' s c).find? p = none := by
  rw [List.find?_eq_none]
  intro x hx hpx
  obtain ⟨i, hi, rfl⟩ := List.mem_range'.mp hx
  have hfalse := h (s + 1 * i) (by omega) (by omega)
  rw [hfalse] at hpx
  exact Bool.false_ne_true hpx

theorem find?_range'_some {p : Nat → Bool} :
    ∀ {c s r : Nat}, s ≤ r → r < s + c → p r = true →
      (∀ i, s ≤ i → i < r → p i = false) →
      (List.range' s c).find? p = some r := by
  intro c
  induction c with
  | zero => intro s r h1 h2 _ _; omega
  | succ n ih =>
    intro s r h1 h2 hp hbefore
    rw [List.range'_succ]
    by_cases hsr : s = r
    · subst hsr; rw [List.find?_cons_of_pos _ hp]
    · have hps : p s = false := hbefore s le_rfl (by omega)
      rw [List.find?_cons_of_neg _ (by simp [hps])]
      exact ih (by omega) (by omega) hp (fun i hi hir => hbefore i (by omega) hir)

theorem findNalStart_eq_none {buf : List Nat} {f : Nat}
    (h : ∀ i, f ≤ i → i + 4 ≤ buf.length → nalMatchAt buf i = false) :
    findNalStart buf f = none := by
  apply find?_range'_none
  intro i hfi hlt
  exact h i hfi (by omega)

theorem findNalStart_eq_some {buf : List Nat} {f r : Nat}
    (h1 : f ≤ r) (h2 : r + 4 ≤ buf.length) (h3 : nalMatchAt buf r = true)
    (h4 : ∀ i, f ≤ i → i < r → nalMatchAt buf i = false) :
    findNalStart buf f = some r := by
  exact find?_range'_some h1 (by omega) h3 h4

/-! ## Structure of a concatenated unit stream -/

theorem length_unitBytes (u : NalSpec) :
    (unitBytes u).length = (scBytes u).length + u.body.length := by
  simp [unitBytes]

theorem scBytes_length (u : NalSpec) :
    (scBytes u).length = if u.four = true then 4 else 3 := by
  cases h : u.four <;> simp [scBytes, h]

theorem scBytes_length_bounds (u : NalSpec) :
    3 ≤ (scBytes u).length ∧ (scBytes u).length ≤ 4 := by
  rw [scBytes_length]; split <;> omega

theorem streamOf_cons (u : NalSpec) (us : List NalSpec) :
    streamOf (u :: us) = unitBytes u ++ streamOf us := by
  simp [streamOf]

theorem posOf_zero (units : List NalSpec) : posOf units 0 = 0 := by
  cases units <;> rfl

theorem drop_posOf (units : List NalSpec) : ∀ t : Nat,
    (streamOf units).drop (posOf units t) = ((units.drop t).map unitBytes).flatten := by
  induction units with
  | nil => intro t; cases t <;> simp [streamOf, posOf]
  | cons u us ih =>
    intro t
    cases t with
    | zero => simp [posOf, streamOf]
    | succ t =>
      show (streamOf (u :: us)).drop ((unitBytes u).length + posOf us t) = _
      rw [streamOf_cons, List.drop_append, ih t]
      simp

theorem posOf_le (units : List NalSpec) : ∀ t : Nat,
    posOf units t ≤ (streamOf units).length := by
  induction units with
  | nil => intro t; cases t <;> simp [posOf]
  | cons u us ih =>
    intro t
    cases t with
    | zero => simp [posOf]
    | succ t =>
      show (unitBytes u).length + posOf us t ≤ _
      rw [streamOf_cons]
      have := ih t
      simp only [List.length_append]
      omega

theorem posOf_succ_of_lt (units : List NalSpec) : ∀ t : Nat, t < units.length →
    posOf units (t + 1) = posOf units t + (unitBytes (units.getD t ⟨false, []⟩)).length := by
  induction units with
  | nil => intro t h; simp at h
  | cons u us ih =>
    intro t ht
    cases t with
    | zero => show (unitBytes u).length + posOf us 0 = posOf (u :: us) 0 + _; simp [posOf]
    | succ t =>
      show (unitBytes u).length + posOf us (t + 1)
        = ((unitBytes u).length + posOf us t) + _
      rw [ih t (by simpa using ht)]
      simp only [List.getD_cons_succ]
      omega

theorem drop_eq_getD_cons {l : List NalSpec} {t : Nat} (h : t < l.length) :
    l.drop t = l.getD t ⟨false, []⟩ :: l.drop (t + 1) := by
  rw [List.drop_eq_getElem_cons h]
  congr 1
  rw [List.getD_eq_getElem?_getD, List.getElem?_eq_getElem h]
  rfl

theorem suffix_cons (units : List NalSpec) {t : Nat} (h : t < units.length) :
    ((units.drop t).map unitBytes).flatten
      = unitBytes (units.getD t ⟨false, []⟩) ++ ((units.drop (t + 1)).map unitBytes).flatten := by
  rw [drop_eq_getD_cons h]
  simp

theorem suffix_length (units : List NalSpec) (t : Nat) :
    (((units.drop t).map unitBytes).flatten).length
      = (streamOf units).length - posOf units t := by
  rw [← drop_posOf]
  simp

theorem buffer_window (units : List NalSpec) (t n : Nat) :
    ((streamOf units).take n).drop (posOf units t)
      = (((units.drop t).map unitBytes).flatten).take (n - posOf units t) := by
  rw [List.drop_take, drop_posOf]

theorem visAt_mono {units : List NalSpec} {t n n' : Nat}
    (h : visAt units t n) (hnn : n ≤ n') : visAt units t n' :=
  ⟨h.1, le_trans h.2 hnn⟩

/-! ## Scanner behaviour on windows of a well-formed unit stream -/

theorem unitBytes_eq_three (u : NalSpec) (rest : List Nat) (h : u.four = false) :
    unitBytes u ++ rest = 0 :: 0 :: 1 :: (u.body ++ rest) := by
  simp [unitBytes, scBytes, h]

theorem unitBytes_eq_four (u : NalSpec) (rest : List Nat) (h : u.four = true) :
    unitBytes u ++ rest = 0 :: 0 :: 0 :: 1 :: (u.body ++ rest) := by
  simp [unitBytes, scBytes, h]

theorem S_getD_body (u : NalSpec) (rest : List Nat) {i : Nat}
    (hge : (scBytes u).length ≤ i) (hlt : i < (unitBytes u).length) :
    (unitBytes u ++ rest).getD i 0 = u.body.getD (i - (scBytes u).length) 0 := by
  rw [getD0_append_left hlt]
  unfold unitBytes
  rw [getD0_append_right hge]

theorem S_getD_rest (u : NalSpec) (rest : List Nat) {i : Nat}
    (hge : (unitBytes u).length ≤ i) :
    (unitBytes u ++ rest).getD i 0 = rest.getD (i - (unitBytes u).length) 0 :=
  getD0_append_right hge

/-- No start-code match can be reported at any scanned position that lies strictly
inside a well-formed unit (past the first three bytes of its start code). -/
theorem noMatch_before_end (u : NalSpec) (rest : List Nat) (m : Nat)
    (hwf : wfBody u.body) {i : Nat} (h3 : 3 ≤ i) (hlt : i < (unitBytes u).length)
    (hm : i + 2 ≤ m) :
    nalMatchAt ((unitBytes u ++ rest).take m) i = false := by
  have hBi : ((unitBytes u ++ rest).take m).getD i 0 = (unitBytes u ++ rest).getD i 0 :=
    getD0_take (by omega)
  have hBi1 : ((unitBytes u ++ rest).take m).getD (i + 1) 0
      = (unitBytes u ++ rest).getD (i + 1) 0 := getD0_take (by omega)
  rcases scBytes_length_bounds u with ⟨hsc3, hsc4⟩
  have hlu := length_unitBytes u
  by_cases hcode : u.four = true ∧ i = 3
  · -- i is the last byte (the 1) of a 4-byte start code
    have e1 : (unitBytes u ++ rest).getD i 0 = 1 := by
      rw [hcode.2, unitBytes_eq_four u rest hcode.1]
      rfl
    have e1' : (((unitBytes u ++ rest).take m).getD i 0 == 0) = false := by
      rw [hBi, e1]
      rfl
    unfold nalMatchAt
    rw [e1']
    rfl
  · have hge : (scBytes u).length ≤ i := by
      rw [scBytes_length] at hsc3 hsc4 ⊢
      by_cases hf : u.four = true
      · have : i ≠ 3 := fun h => hcode ⟨hf, h⟩
        simp [hf]
        omega
      · simp [hf] at *
        omega
    have hj : i - (scBytes u).length < u.body.length := by omega
    by_cases hlast : i + 1 = (unitBytes u).length
    · -- i is the final body byte, which is nonzero
      have hjlast : i - (scBytes u).length = u.body.length - 1 := by omega
      have e1 : (unitBytes u ++ rest).getD i 0 ≠ 0 := by
        rw [S_getD_body u rest hge hlt, hjlast]
        exact hwf.2.2
      have e1' : (((unitBytes u ++ rest).take m).getD i 0 == 0) = false := by
        rw [hBi]
        simpa using e1
      unfold nalMatchAt
      rw [e1']
      rfl
    · -- i and i+1 are a consecutive body pair, which is never 0,0
      have hj1 : i + 1 - (scBytes u).length < u.body.length := by omega
      have hpair := hwf.2.1 (i - (scBytes u).length) (by omega)
      have e1 : (unitBytes u ++ rest).getD i 0 = u.body.getD (i - (scBytes u).length) 0 :=
        S_getD_body u rest hge hlt
      have e2 : (unitBytes u ++ rest).getD (i + 1) 0
          = u.body.getD (i - (scBytes u).length + 1) 0 := by
        rw [S_getD_body u rest (by omega) (by omega)]
        congr 1
        omega
      by_cases hz : u.body.getD (i - (scBytes u).length) 0 = 0
      · have hnz : u.body.getD (i - (scBytes u).length + 1) 0 ≠ 0 :=
          fun h2 => hpair ⟨hz, h2⟩
        have e2' : (((unitBytes u ++ rest).take m).getD (i + 1) 0 == 0) = false := by
          rw [hBi1, e2]
          simpa using hnz
        unfold nalMatchAt
        rw [e2', Bool.and_false, Bool.false_and]
      · have e1' : (((unitBytes u ++ rest).take m).getD i 0 == 0) = false := by
          rw [hBi, e1]
          simpa using hz
        unfold nalMatchAt
        rw [e1']
        rfl

/-- The scanner finds the start code at offset 0 of a window that begins at a unit
boundary, as soon as the start code plus one lookahead byte are present. -/
theorem findZero_some (u : NalSpec) (rest : List Nat) (m : Nat)
    (hb : u.body ≠ []) (hm : (scBytes u).length + 1 ≤ m) :
    findNalStart ((unitBytes u ++ rest).take m) 0 = some 0 := by
  have hbody1 : 1 ≤ u.body.length := List.length_pos.mpr hb
  rcases scBytes_length_bounds u with ⟨hsc3, hsc4⟩
  have hlu := length_unitBytes u
  have hlenS : (unitBytes u ++ rest).length = (unitBytes u).length + rest.length := by
    simp
  have hlenB : ((unitBytes u ++ rest).take m).length
      = min m ((unitBytes u ++ rest).length) := List.length_take m _
  apply findNalStart_eq_some le_rfl
  · omega
  · cases hf : u.four
    · have hS := unitBytes_eq_three u rest hf
      have hsc : (scBytes u).length = 3 := by rw [scBytes_length, hf]; rfl
      have e0 : ((unitBytes u ++ rest).take m).getD 0 0 = 0 := by
        rw [getD0_take (by omega), hS]; rfl
      have e1 : ((unitBytes u ++ rest).take m).getD 1 0 = 0 := by
        rw [getD0_take (by omega), hS]; rfl
      have e2 : ((unitBytes u ++ rest).take m).getD 2 0 = 1 := by
        rw [getD0_take (by omega), hS]; rfl
      unfold nalMatchAt
      simp only [Nat.zero_add]
      rw [e0, e1, e2]
      rfl
    · have hS := unitBytes_eq_four u rest hf
      have hsc : (scBytes u).length = 4 := by rw [scBytes_length, hf]; rfl
      have e0 : ((unitBytes u ++ rest).take m).getD 0 0 = 0 := by
        rw [getD0_take (by omega), hS]; rfl
      have e1 : ((unitBytes u ++ rest).take m).getD 1 0 = 0 := by
        rw [getD0_take (by omega), hS]; rfl
      have e2 : ((unitBytes u ++ rest).take m).getD 2 0 = 0 := by
        rw [getD0_take (by omega), hS]; rfl
      have e3 : ((unitBytes u ++ rest).take m).getD 3 0 = 1 := by
        rw [getD0_take (by omega), hS]; rfl
      have hb5 : 5 ≤ ((unitBytes u ++ rest).take m).length := by omega
      unfold nalMatchAt
      simp only [Nat.zero_add]
      rw [e0, e1, e2, e3, decide_eq_true hb5]
      rfl
  · intro i h0 hi
    omega

/-- The scanner finds nothing in a window that cuts off inside the leading start
code (fewer than start-code-length plus one bytes). -/
theorem findZero_none (u : NalSpec) (rest : List Nat) (m : Nat)
    (hm : m ≤ (scBytes u).length) :
    findNalStart ((unitBytes u ++ rest).take m) 0 = none := by
  apply findNalStart_eq_none
  intro i h0 hbound
  rw [List.length_take] at hbound
  rcases scBytes_length_bounds u with ⟨hsc3, hsc4⟩
  have h4m : 4 ≤ m := by omega
  have hsc4' : (scBytes u).length = 4 := by omega
  have hf : u.four = true := by
    by_contra hf
    rw [scBytes_length] at hsc4'
    simp [hf] at hsc4'
  have hm4 : m = 4 := by omega
  have hi0 : i = 0 := by omega
  have hB : (unitBytes u ++ rest).take m = [0, 0, 0, 1] := by
    rw [hm4, unitBytes_eq_four u rest hf]
    rfl
  rw [hi0, hB]
  decide

/-- Searching from offset 3 inside the final unit's window never finds a start code:
the rest of the window is well-formed body bytes. -/
theorem findFrom3_none_last (u : NalSpec) (m : Nat) (hwf : wfBody u.body) :
    findNalStart ((unitBytes u).take m) 3 = none := by
  apply findNalStart_eq_none
  intro i h3 hbound
  rw [List.length_take] at hbound
  have hlt : i < (unitBytes u).length := by omega
  have h := noMatch_before_end u [] m hwf h3 hlt (by omega)
  simpa using h

/-- Searching from offset 3 finds nothing as long as the following unit's start code
is not yet fully detectable (window ends at or before the code's last byte). -/
theorem findFrom3_none_mid (u u' : NalSpec) (r' : List Nat) (m : Nat)
    (hwf : wfBody u.body)
    (hnv : m ≤ (unitBytes u).length + (scBytes u').length) :
    findNalStart ((unitBytes u ++ (unitBytes u' ++ r')).take m) 3 = none := by
  apply findNalStart_eq_none
  intro i h3 hbound
  rw [List.length_take] at hbound
  by_cases hip : i < (unitBytes u).length
  · exact noMatch_before_end u _ m hwf h3 hip (by omega)
  · push_neg at hip
    rcases scBytes_length_bounds u' with ⟨hsc3', hsc4'⟩
    have hcase : (scBytes u').length = 4 ∧ i = (unitBytes u).length := by omega
    have hf : u'.four = true := by
      by_contra hf
      have h4 := hcase.1
      rw [scBytes_length] at h4
      simp [hf] at h4
    have e2 : ((unitBytes u ++ (unitBytes u' ++ r')).take m).getD (i + 2) 0 = 0 := by
      rw [getD0_take (by omega), S_getD_rest u _ (by omega), hcase.2]
      rw [unitBytes_eq_four u' r' hf]
      simp
    have e2' : (((unitBytes u ++ (unitBytes u' ++ r')).take m).getD (i + 2) 0 == 1)
        = false := by rw [e2]; rfl
    have hb5 : ¬(i + 5 ≤ ((unitBytes u ++ (unitBytes u' ++ r')).take m).length) := by
      rw [List.length_take]
      omega
    unfold nalMatchAt
    rw [e2', decide_eq_false hb5]
    simp only [Bool.false_and, Bool.false_or, Bool.and_false]

/-- Searching from offset 3 finds exactly the next unit's start code once it is fully
detectable, and nothing earlier. -/
theorem findFrom3_some (u u' : NalSpec) (r' : List Nat) (m : Nat)
    (hwf : wfBody u.body)
    (hm2 : m ≤ (unitBytes u ++ (unitBytes u' ++ r')).length)
    (hvis : (unitBytes u).length + (scBytes u').length + 1 ≤ m) :
    findNalStart ((unitBytes u ++ (unitBytes u' ++ r')).take m) 3
      = some (unitBytes u).length := by
  have hbody1 : 1 ≤ u.body.length := List.length_pos.mpr hwf.1
  rcases scBytes_length_bounds u with ⟨hsc3, hsc4⟩
  rcases scBytes_length_bounds u' with ⟨hsc3', hsc4'⟩
  have hlu := length_unitBytes u
  have hlenS : (unitBytes u ++ (unitBytes u' ++ r')).length
      = (unitBytes u).length + ((unitBytes u' ++ r').length) := by simp
  have hlenB : ((unitBytes u ++ (unitBytes u' ++ r')).take m).length
      = min m ((unitBytes u ++ (unitBytes u' ++ r')).length) := List.length_take m _
  apply findNalStart_eq_some
  · omega
  · omega
  · cases hf : u'.four
    · have hrest := unitBytes_eq_three u' r' hf
      have hsc : (scBytes u').length = 3 := by rw [scBytes_length, hf]; rfl
      have e0 : ((unitBytes u ++ (unitBytes u' ++ r')).take m).getD
          ((unitBytes u).length) 0 = 0 := by
        rw [getD0_take (by omega), S_getD_rest u _ le_rfl, Nat.sub_self, hrest]
        rfl
      have e1 : ((unitBytes u ++ (unitBytes u' ++ r')).take m).getD
          ((unitBytes u).length + 1) 0 = 0 := by
        rw [getD0_take (by omega), S_getD_rest u _ (by omega),
          Nat.add_sub_cancel_left, hrest]
        rfl
      have e2 : ((unitBytes u ++ (unitBytes u' ++ r')).take m).getD
          ((unitBytes u).length + 2) 0 = 1 := by
        rw [getD0_take (by omega), S_getD_rest u _ (by omega),
          Nat.add_sub_cancel_left, hrest]
        rfl
      unfold nalMatchAt
      rw [e0, e1, e2]
      rfl
    · have hrest := unitBytes_eq_four u' r' hf
      have hsc : (scBytes u').length = 4 := by rw [scBytes_length, hf]; rfl
      have e0 : ((unitBytes u ++ (unitBytes u' ++ r')).take m).getD
          ((unitBytes u).length) 0 = 0 := by
        rw [getD0_take (by omega), S_getD_rest u _ le_rfl, Nat.sub_self, hrest]
        rfl
      have e1 : ((unitBytes u ++ (unitBytes u' ++ r')).take m).getD
          ((unitBytes u).length + 1) 0 = 0 := by
        rw [getD0_take (by omega), S_getD_rest u _ (by omega),
          Nat.add_sub_cancel_left, hrest]
        rfl
      have e2 : ((unitBytes u ++ (unitBytes u' ++ r')).take m).getD
          ((unitBytes u).length + 2) 0 = 0 := by
        rw [getD0_take (by omega), S_getD_rest u _ (by omega),
          Nat.add_sub_cancel_left, hrest]
        rfl
      have e3 : ((unitBytes u ++ (unitBytes u' ++ r')).take m).getD
          ((unitBytes u).length + 3) 0 = 1 := by
        rw [getD0_take (by omega), S_getD_rest u _ (by omega),
          Nat.add_sub_cancel_left, hrest]
        rfl
      have hb5 : (unitBytes u).length + 5
          ≤ ((unitBytes u ++ (unitBytes u' ++ r')).take m).length := by omega
      unfold nalMatchAt
      rw [e0, e1, e2, e3, decide_eq_true hb5]
      rfl
  · intro i h3 hip
    exact noMatch_before_end u _ m hwf h3 hip (by omega)

theorem getD_mem {l : List NalSpec} {t : Nat} (h : t < l.length) :
    l.getD t ⟨false, []⟩ ∈ l := by
  rw [List.getD_eq_getElem?_getD, List.getElem?_eq_getElem h]
  exact List.getElem_mem h

theorem visAt_succ_imp (units : List NalSpec) (hwf : ∀ u ∈ units, wfBody u.body)
    {t n : Nat} (h : visAt units (t + 1) n) : visAt units t n := by
  have ht1 : t + 1 < units.length := h.1
  have ht : t < units.length := by omega
  have hpos := posOf_succ_of_lt units t ht
  have hb : (units.getD t ⟨false, []⟩).body ≠ [] := (hwf _ (getD_mem ht)).1
  have hb1 : 1 ≤ (units.getD t ⟨false, []⟩).body.length := List.length_pos.mpr hb
  have hlu := length_unitBytes (units.getD t ⟨false, []⟩)
  rcases scBytes_length_bounds (units.getD t ⟨false, []⟩) with ⟨hs3, hs4⟩
  rcases scBytes_length_bounds (units.getD (t + 1) ⟨false, []⟩) with ⟨hs3', hs4'⟩
  have h2 := h.2
  exact ⟨ht, by omega⟩

/-! ## Frame lemmas: which fields each operation leaves untouched -/

theorem configureDecoder_frame (st : DecoderState) :
    (configureDecoder st).buffer = st.buffer ∧
    (configureDecoder st).handledUnits = st.handledUnits ∧
    (configureDecoder st).isInitialized = st.isInitialized ∧
    (configureDecoder st).videoDecoder = st.videoDecoder ∧
    (configureDecoder st).decodeCalls = st.decodeCalls := by
  unfold configureDecoder
  cases st.sps <;> cases st.pps <;> simp <;> split <;> simp

theorem handleNalUnit_frame (st : DecoderState) (u : List Nat) :
    (handleNalUnit st u).buffer = st.buffer ∧
    (handleNalUnit st u).handledUnits = st.handledUnits ++ [u] ∧
    (handleNalUnit st u).isInitialized = st.isInitialized ∧
    (handleNalUnit st u).videoDecoder = st.videoDecoder := by
  unfold handleNalUnit
  dsimp only
  split
  · split
    · have h := configureDecoder_frame
        { st with nalCount := st.nalCount + 1,
                  handledUnits := st.handledUnits ++ [u], sps := some u }
      exact ⟨h.1, h.2.1, h.2.2.1, h.2.2.2.1⟩
    · exact ⟨rfl, rfl, rfl, rfl⟩
  · split
    · split
      · have h := configureDecoder_frame
          { st with nalCount := st.nalCount + 1,
                    handledUnits := st.handledUnits ++ [u], pps := some u }
        exact ⟨h.1, h.2.1, h.2.2.1, h.2.2.2.1⟩
      · exact ⟨rfl, rfl, rfl, rfl⟩
    · split
      · exact ⟨rfl, rfl, rfl, rfl⟩
      · split
        · exact ⟨rfl, rfl, rfl, rfl⟩
        · exact ⟨rfl, rfl, rfl, rfl⟩

/-- One unfolding of the scan loop, as a plain equation. -/
theorem processLoop_succ_eq (f : Nat) (st : DecoderState) :
    processLoop (f + 1) st =
      match findNalStart st.buffer 0 with
      | none => st
      | some startIdx =>
        match findNalStart st.buffer (startIdx + 3) with
        | none => if startIdx > 0 then { st with buffer := st.buffer.drop startIdx } else st
        | some nextIdx =>
          processLoop f
            { handleNalUnit st ((st.buffer.take nextIdx).drop startIdx) with
              buffer :=
                (handleNalUnit st ((st.buffer.take nextIdx).drop startIdx)).buffer.drop
                  nextIdx } := rfl

theorem processLoop_succ_none (f : Nat) (st : DecoderState)
    (h0 : findNalStart st.buffer 0 = none) : processLoop (f + 1) st = st := by
  rw [processLoop_succ_eq]
  simp only [h0]

theorem processLoop_succ_break (f : Nat) (st : DecoderState)
    (h0 : findNalStart st.buffer 0 = some 0)
    (h3 : findNalStart st.buffer 3 = none) : processLoop (f + 1) st = st := by
  rw [processLoop_succ_eq]
  simp only [h0, Nat.zero_add, h3]
  rfl

theorem processLoop_succ_emit (f : Nat) (st : DecoderState) (p : Nat)
    (h0 : findNalStart st.buffer 0 = some 0)
    (h3 : findNalStart st.buffer 3 = some p) :
    processLoop (f + 1) st = processLoop f
      { handleNalUnit st (st.buffer.take p) with
        buffer := (handleNalUnit st (st.buffer.take p)).buffer.drop p } := by
  rw [processLoop_succ_eq]
  simp only [h0, Nat.zero_add, h3, List.drop_zero]

/-- Main scan-loop lemma: on a window of a well-formed unit stream that starts at
unit `t`'s boundary (or holds an undetectable prefix when `t = 0`), `processLoop`
emits exactly the units whose terminating start codes are detectable, in order, and
leaves the window anchored at the last detectable unit's start. -/
theorem processLoop_scan (units : List NalSpec)
    (hwf : ∀ u ∈ units, wfBody u.body) (n : Nat)
    (hn : n ≤ (streamOf units).length) :
    ∀ (fuel t : Nat) (st : DecoderState),
      st.buffer = ((streamOf units).take n).drop (posOf units t) →
      (visAt units t n ∨ (t = 0 ∧ ¬ visAt units 0 n)) →
      ¬ visAt units (t + fuel + 1) n →
      ∃ t', t ≤ t' ∧
        (visAt units t' n ∨ (t' = 0 ∧ ¬ visAt units 0 n)) ∧
        ¬ visAt units (t' + 1) n ∧
        (processLoop fuel st).buffer = ((streamOf units).take n).drop (posOf units t') ∧
        (processLoop fuel st).handledUnits
          = st.handledUnits ++ ((units.drop t).take (t' - t)).map unitBytes := by
  intro fuel
  induction fuel with
  | zero =>
    intro t st hbuf hpre hfuel
    refine ⟨t, le_rfl, hpre, ?_, hbuf, by simp [processLoop]⟩
    simpa using hfuel
  | succ f ih =>
    intro t st hbuf hpre hfuel
    have hwin : st.buffer
        = (((units.drop t).map unitBytes).flatten).take (n - posOf units t) := by
      rw [hbuf, buffer_window]
    rcases hpre with hvis | ⟨ht0, hnv0⟩
    · -- the window starts at unit t's start code, which is detectable
      have htk : t < units.length := hvis.1
      have hd_wf : wfBody (units.getD t ⟨false, []⟩).body := hwf _ (getD_mem htk)
      have hbody1 : 1 ≤ (units.getD t ⟨false, []⟩).body.length :=
        List.length_pos.mpr hd_wf.1
      rcases scBytes_length_bounds (units.getD t ⟨false, []⟩) with ⟨hs3, hs4⟩
      have hlu := length_unitBytes (units.getD t ⟨false, []⟩)
      have hposle : posOf units t ≤ n := by have := hvis.2; omega
      have hm1 : (scBytes (units.getD t ⟨false, []⟩)).length + 1 ≤ n - posOf units t := by
        have := hvis.2; omega
      have hsplit := suffix_cons units htk
      have hwin' : st.buffer = (unitBytes (units.getD t ⟨false, []⟩) ++
          ((units.drop (t + 1)).map unitBytes).flatten).take (n - posOf units t) := by
        rw [hwin, hsplit]
      have find0 : findNalStart st.buffer 0 = some 0 := by
        rw [hwin']
        exact findZero_some _ _ _ hd_wf.1 hm1
      have hmS : n - posOf units t ≤ (unitBytes (units.getD t ⟨false, []⟩) ++
          ((units.drop (t + 1)).map unitBytes).flatten).length := by
        rw [← hsplit, suffix_length]
        omega
      by_cases hv1 : visAt units (t + 1) n
      · -- emit: unit t's terminating start code is detectable
        have ht1k : t + 1 < units.length := hv1.1
        have hsplit1 := suffix_cons units ht1k
        have hpos1 := posOf_succ_of_lt units t htk
        have hvis' : (unitBytes (units.getD t ⟨false, []⟩)).length +
            (scBytes (units.getD (t + 1) ⟨false, []⟩)).length + 1
              ≤ n - posOf units t := by
          have := hv1.2
          omega
        have find3 : findNalStart st.buffer 3
            = some (unitBytes (units.getD t ⟨false, []⟩)).length := by
          rw [hwin', hsplit1]
          exact findFrom3_some _ _ _ _ hd_wf (by rw [← hsplit1]; exact hmS) hvis'
        have hnal : st.buffer.take (unitBytes (units.getD t ⟨false, []⟩)).length
            = unitBytes (units.getD t ⟨false, []⟩) := by
          rw [hwin', List.take_take]
          have hple : (unitBytes (units.getD t ⟨false, []⟩)).length
              ≤ n - posOf units t := by omega
          rw [min_eq_left hple]
          exact List.take_left' rfl
        have hPL := processLoop_succ_emit f st _ find0 find3
        rw [hnal] at hPL
        rw [hPL]
        have hframe := handleNalUnit_frame st (unitBytes (units.getD t ⟨false, []⟩))
        have hst2buf : ({ handleNalUnit st (unitBytes (units.getD t ⟨false, []⟩)) with
            buffer := (handleNalUnit st (unitBytes (units.getD t ⟨false, []⟩))).buffer.drop
              (unitBytes (units.getD t ⟨false, []⟩)).length } : DecoderState).buffer
            = ((streamOf units).take n).drop (posOf units (t + 1)) := by
          dsimp only
          rw [hframe.1, hwin', List.drop_take, List.drop_left' rfl,
            buffer_window units (t + 1) n]
          have harg : n - posOf units t - (unitBytes (units.getD t ⟨false, []⟩)).length
              = n - posOf units (t + 1) := by
            rw [hpos1]
            omega
          rw [harg]
        have hfuel' : ¬ visAt units (t + 1 + f + 1) n := by
          have harith : t + 1 + f + 1 = t + (f + 1) + 1 := by omega
          rw [harith]
          exact hfuel
        obtain ⟨t', ht'ge, ht'pre, ht'nv, ht'buf, ht'hand⟩ :=
          ih (t + 1) _ hst2buf (Or.inl hv1) hfuel'
        refine ⟨t', by omega, ht'pre, ht'nv, ht'buf, ?_⟩
        rw [ht'hand]
        dsimp only
        rw [hframe.2.1, List.append_assoc]
        congr 1
        rw [drop_eq_getD_cons htk]
        have htt : t' - t = (t' - (t + 1)) + 1 := by omega
        rw [htt]
        rfl
      · -- break: unit t's terminating start code is not yet detectable
        have find3 : findNalStart st.buffer 3 = none := by
          by_cases ht1k : t + 1 < units.length
          · have hsplit1 := suffix_cons units ht1k
            rw [hwin', hsplit1]
            apply findFrom3_none_mid _ _ _ _ hd_wf
            have hnle : ¬ (posOf units (t + 1) +
                (scBytes (units.getD (t + 1) ⟨false, []⟩)).length + 1 ≤ n) :=
              fun hc => hv1 ⟨ht1k, hc⟩
            have hpos1 := posOf_succ_of_lt units t htk
            omega
          · have hdrop : units.drop (t + 1) = [] := by
              apply List.drop_eq_nil_of_le
              omega
            rw [hwin', hdrop]
            simp only [List.map_nil, List.flatten_nil, List.append_nil]
            exact findFrom3_none_last _ _ hd_wf
        have hPL := processLoop_succ_break f st find0 find3
        rw [hPL]
        exact ⟨t, le_rfl, Or.inl hvis, hv1, hbuf, by simp⟩
    · -- the window holds only an undetectable prefix of the first unit
      subst ht0
      have find0 : findNalStart st.buffer 0 = none := by
        by_cases hk : units.length = 0
        · have hunil : units = [] := List.length_eq_zero.mp hk
          subst hunil
          have hbe : st.buffer = [] := by
            rw [hbuf]
            simp [streamOf]
          rw [hbe]
          rfl
        · have h0k : 0 < units.length := by omega
          have hsplit := suffix_cons units h0k
          have hnle : n ≤ (scBytes (units.getD 0 ⟨false, []⟩)).length := by
            have hc : ¬ (posOf units 0 +
                (scBytes (units.getD 0 ⟨false, []⟩)).length + 1 ≤ n) :=
              fun hc => hnv0 ⟨h0k, hc⟩
            rw [posOf_zero] at hc
            omega
          rw [hwin]
          simp only [posOf_zero, Nat.sub_zero]
          rw [hsplit]
          exact findZero_none _ _ _ hnle
      have hPL := processLoop_succ_none f st find0
      rw [hPL]
      refine ⟨0, le_rfl, Or.inr ⟨rfl, hnv0⟩, ?_, hbuf, by simp⟩
      intro hv1
      exact hnv0 (visAt_succ_imp units hwf hv1)

theorem configureDecoder_cfgInv {st : DecoderState} (h : CfgInv st) :
    CfgInv (configureDecoder st) := by
  unfold configureDecoder
  cases hs : st.sps <;> cases hp : st.pps <;> simp only [hs, hp]
  · exact h
  · exact h
  · exact h
  · split
    · intro _; simp [hs, hp]
    · exact h

theorem handleNalUnit_cfgInv {st : DecoderState} (u : List Nat) (h : CfgInv st) :
    CfgInv (handleNalUnit st u) := by
  unfold handleNalUnit
  dsimp only
  split
  · split
    · apply configureDecoder_cfgInv
      intro hc
      exact ⟨rfl, (h hc).2⟩
    · intro hc
      exact ⟨rfl, (h hc).2⟩
  · split
    · split
      · apply configureDecoder_cfgInv
        intro hc
        exact ⟨(h hc).1, rfl⟩
      · intro hc
        exact ⟨(h hc).1, rfl⟩
    · split
      · exact h
      · split
        · exact h
        · exact h

theorem processLoop_frame (fuel : Nat) : ∀ st : DecoderState,
    (processLoop fuel st).isInitialized = st.isInitialized ∧
    (processLoop fuel st).videoDecoder = st.videoDecoder := by
  induction fuel with
  | zero => intro st; exact ⟨rfl, rfl⟩
  | succ n ih =>
    intro st
    unfold processLoop
    split
    · exact ⟨rfl, rfl⟩
    · split
      · split
        · exact ⟨rfl, rfl⟩
        · exact ⟨rfl, rfl⟩
      · rename_i oscr startIdx h0 iscr nextIdx h1
        have hh := handleNalUnit_frame st ((st.buffer.take nextIdx).drop startIdx)
        have hrec := ih { handleNalUnit st ((st.buffer.take nextIdx).drop startIdx) with
          buffer := (handleNalUnit st ((st.buffer.take nextIdx).drop startIdx)).buffer.drop nextIdx }
        exact ⟨hrec.1.trans hh.2.2.1, hrec.2.trans hh.2.2.2⟩

theorem processLoop_cfgInv (fuel : Nat) : ∀ st : DecoderState, CfgInv st →
    CfgInv (processLoop fuel st) := by
  induction fuel with
  | zero => intro st h; exact h
  | succ n ih =>
    intro st h
    unfold processLoop
    split
    · exact h
    · split
      · split
        · exact h
        · exact h
      · rename_i oscr startIdx h0 iscr nextIdx h1
        exact ih _ (handleNalUnit_cfgInv _ h)

theorem processLoop_handled_le (fuel : Nat) : ∀ st : DecoderState,
    (processLoop fuel st).handledUnits.length ≤ st.handledUnits.length + fuel := by
  induction fuel with
  | zero => intro st; simp [processLoop]
  | succ n ih =>
    intro st
    unfold processLoop
    split
    · omega
    · split
      · split
        · dsimp only
          omega
        · omega
      · rename_i oscr startIdx h0 iscr nextIdx h1
        have hh := handleNalUnit_frame st ((st.buffer.take nextIdx).drop startIdx)
        have hrec := ih { handleNalUnit st ((st.buffer.take nextIdx).drop startIdx) with
          buffer := (handleNalUnit st ((st.buffer.take nextIdx).drop startIdx)).buffer.drop nextIdx }
        have hlen : (handleNalUnit st ((st.buffer.take nextIdx).drop startIdx)).handledUnits.length
            = st.handledUnits.length + 1 := by rw [hh.2.1]; simp
        have h2 : (handleNalUnit st ((st.buffer.take nextIdx).drop startIdx)).handledUnits.length + n
            ≤ st.handledUnits.length + (n + 1) := by omega
        exact le_trans (le_trans hrec (le_of_eq (by dsimp only))) h2

theorem processBuffer_handled_le (st : DecoderState) :
    (processBuffer st).handledUnits.length ≤ st.handledUnits.length + 100 := by
  unfold processBuffer
  dsimp only
  split
  · exact processLoop_handled_le 100 st
  · exact processLoop_handled_le 100 st

theorem processBuffer_buffer_le (st : DecoderState) :
    (processBuffer st).buffer.length ≤ 512 * 1024 := by
  unfold processBuffer
  dsimp only
  split
  · rename_i hgt
    simp only [List.length_drop]
    omega
  · rename_i hle
    omega

/-- Feeding lemma: any chunked feeding of the remainder of a well-formed unit stream
drives the decoder from a window anchored at unit `t` to the end of the stream,
emitting exactly the intermediate units in order.  Requires at most 101 units (the
100-iteration scan budget then never truncates a call) and a stream within the 512 KiB
cap (the overflow trim never fires). -/
theorem feedAll_scan (units : List NalSpec)
    (hwf : ∀ u ∈ units, wfBody u.body)
    (hk : units.length ≤ 101)
    (hN : (streamOf units).length ≤ 512 * 1024) :
    ∀ (cs : List (List Nat)) (n t : Nat) (st : DecoderState),
      cs.flatten = (streamOf units).drop n →
      n ≤ (streamOf units).length →
      st.isInitialized = true →
      st.buffer = ((streamOf units).take n).drop (posOf units t) →
      (visAt units t n ∨ (t = 0 ∧ ¬ visAt units 0 n)) →
      ¬ visAt units (t + 1) n →
      ∃ t', t ≤ t' ∧
        (visAt units t' (streamOf units).length ∨
          (t' = 0 ∧ ¬ visAt units 0 (streamOf units).length)) ∧
        ¬ visAt units (t' + 1) (streamOf units).length ∧
        (feedAll st cs).handledUnits
          = st.handledUnits ++ ((units.drop t).take (t' - t)).map unitBytes := by
  intro cs
  induction cs with
  | nil =>
    intro n t st hcs hn hinit hbuf hpre hnv
    have hdropnil : (streamOf units).drop n = [] := by simpa using hcs.symm
    have hlen0 := congrArg List.length hdropnil
    simp only [List.length_drop, List.length_nil] at hlen0
    have hnN : n = (streamOf units).length := by omega
    refine ⟨t, le_rfl, ?_, ?_, by simp [feedAll]⟩
    · rw [← hnN]
      exact hpre
    · rw [← hnN]
      exact hnv
  | cons c cs ih =>
    intro n t st hcs hn hinit hbuf hpre hnv
    have hcsimp : c ++ cs.flatten = (streamOf units).drop n := by simpa using hcs
    have hc : c = ((streamOf units).drop n).take c.length := by
      rw [← hcsimp]
      exact (List.take_left c cs.flatten).symm
    have hrest : cs.flatten = (streamOf units).drop (n + c.length) := by
      rw [← List.drop_drop, ← hcsimp, List.drop_left]
    have hlensum := congrArg List.length hcsimp
    simp only [List.length_append, List.length_drop] at hlensum
    have hclen : n + c.length ≤ (streamOf units).length := by omega
    have hposle : posOf units t ≤ n := by
      rcases hpre with h | ⟨h0, _⟩
      · have := h.2
        omega
      · rw [h0, posOf_zero]
        omega
    have hdec : decode st c = processBuffer
        { st with frameCount := st.frameCount + 1, buffer := st.buffer ++ c } := by
      unfold decode
      simp [hinit]
    have happ : st.buffer ++ c
        = ((streamOf units).take (n + c.length)).drop (posOf units t) := by
      conv_lhs => rw [hbuf, hc]
      rw [List.take_add,
        List.drop_append_of_le_length (by simp [List.length_take]; omega)]
    have hpre' : visAt units t (n + c.length) ∨
        (t = 0 ∧ ¬ visAt units 0 (n + c.length)) := by
      rcases hpre with h | ⟨h0, hn0⟩
      · exact Or.inl (visAt_mono h (by omega))
      · by_cases hv : visAt units 0 (n + c.length)
        · rw [h0]
          exact Or.inl hv
        · exact Or.inr ⟨h0, hv⟩
    have hfuel : ¬ visAt units (t + 100 + 1) (n + c.length) := by
      intro hv
      have := hv.1
      omega
    obtain ⟨t'', ht''ge, ht''pre, ht''nv, ht''buf, ht''hand⟩ :=
      processLoop_scan units hwf (n + c.length) hclen 100 t
        { st with frameCount := st.frameCount + 1, buffer := st.buffer ++ c }
        (by dsimp only; rw [happ]) hpre' hfuel
    have hlooplen : (processLoop 100
        { st with frameCount := st.frameCount + 1,
                  buffer := st.buffer ++ c }).buffer.length ≤ 512 * 1024 := by
      rw [ht''buf]
      simp only [List.length_drop, List.length_take]
      omega
    have hPB : processBuffer
        { st with frameCount := st.frameCount + 1, buffer := st.buffer ++ c }
        = processLoop 100
          { st with frameCount := st.frameCount + 1, buffer := st.buffer ++ c } := by
      unfold processBuffer
      dsimp only
      rw [if_neg (by omega)]
    have hst' : decode st c = processLoop 100
        { st with frameCount := st.frameCount + 1, buffer := st.buffer ++ c } := by
      rw [hdec, hPB]
    have hinit' : (decode st c).isInitialized = true := by
      rw [hst', (processLoop_frame 100 _).1]
      exact hinit
    obtain ⟨t', ht'ge, ht'pre, ht'nv, ht'hand⟩ :=
      ih (n + c.length) t'' (decode st c) (by rw [hrest]) hclen hinit'
        (by rw [hst']; exact ht''buf) ht''pre ht''nv
    refine ⟨t', by omega, ht'pre, ht'nv, ?_⟩
    have hdh : (decode st c).handledUnits
        = st.handledUnits ++ ((units.drop t).take (t'' - t)).map unitBytes := by
      rw [hst', ht''hand]
    have hseg : ((units.drop t).take (t'' - t)) ++ ((units.drop t'').take (t' - t''))
        = (units.drop t).take (t' - t) := by
      have hd : units.drop t'' = (units.drop t).drop (t'' - t) := by
        rw [List.drop_drop]
        congr 1
        omega
      rw [hd, ← List.take_add]
      congr 1
      omega
    calc (feedAll st (c :: cs)).handledUnits
        = (feedAll (decode st c) cs).handledUnits := rfl
      _ = (decode st c).handledUnits ++ ((units.drop t'').take (t' - t'')).map unitBytes :=
          ht'hand
      _ = st.handledUnits ++ ((units.drop t).take (t' - t)).map unitBytes := by
          rw [hdh, List.append_assoc, ← List.map_append, hseg]

theorem append_singleton_ne {α : Type} (l : List α) (x : α) : l ++ [x] ≠ l := by
  intro h
  have hlen := congrArg List.length h
  simp at hlen

theorem decode_cfgInv {st : DecoderState} (h : CfgInv st) (data : List Nat) :
    CfgInv (decode st data) := by
  unfold decode
  split
  · have hX : CfgInv (processLoop 100
      { st with frameCount := st.frameCount + 1, buffer := st.buffer ++ data }) :=
      processLoop_cfgInv 100 _ h
    unfold processBuffer
    dsimp only
    split
    · intro hc
      exact hX hc
    · exact hX
  · exact h

theorem handleNalUnit_configureCalls_grow (st : DecoderState) (u : List Nat)
    (hv : st.videoDecoder = true)
    (h : (unitType u = 7 ∧ st.pps.isSome = true) ∨ (unitType u = 8 ∧ st.sps.isSome = true)) :
    ∃ r, (handleNalUnit st u).configureCalls = st.configureCalls ++ [r] := by
  rcases h with ⟨h7, hps⟩ | ⟨h8, hss⟩
  · obtain ⟨pp, hpp⟩ := Option.isSome_iff_exists.mp hps
    refine ⟨buildAvcC (u.drop (if u.getD 2 0 == 1 then 3 else 4))
      (pp.drop (if pp.getD 2 0 == 1 then 3 else 4)), ?_⟩
    unfold handleNalUnit configureDecoder
    simp [h7, hpp, hv]
  · obtain ⟨sp, hsp⟩ := Option.isSome_iff_exists.mp hss
    refine ⟨buildAvcC (sp.drop (if sp.getD 2 0 == 1 then 3 else 4))
      (u.drop (if u.getD 2 0 == 1 then 3 else 4)), ?_⟩
    unfold handleNalUnit configureDecoder
    simp [h8, hsp, hv]

theorem handleNalUnit_configureCalls_same (st : DecoderState) (u : List Nat)
    (h : ¬((unitType u = 7 ∧ st.pps.isSome = true) ∨ (unitType u = 8 ∧ st.sps.isSome = true))) :
    (handleNalUnit st u).configureCalls = st.configureCalls := by
  push_neg at h
  by_cases h7 : unitType u = 7
  · have hpp : st.pps = none := Option.not_isSome_iff_eq_none.mp (by
      intro hsome
      exact h.1 h7 hsome)
    unfold handleNalUnit
    simp [h7, hpp]
  · by_cases h8 : unitType u = 8
    · have hsp : st.sps = none := Option.not_isSome_iff_eq_none.mp (by
        intro hsome
        exact h.2 h8 hsome)
      unfold handleNalUnit
      simp [h7, h8, hsp]
    · have e7 : (unitType u == 7) = false := by simp [h7]
      have e8 : (unitType u == 8) = false := by simp [h8]
      unfold handleNalUnit
      simp only [e7, e8, Bool.false_eq_true, if_false]
      split
      · rfl
      · split
        · rfl
        · rfl

end H264Decoder

open H264Decoder

/-! ## Claim C10 -/

/-- C10: calling `decode(bytes)` before `init()` is a complete no-op — the state
(buffer, SPS, PPS, configured flag, every counter and trace) is returned unchanged. -/
theorem C10_decode_before_init_is_noop (st : DecoderState) (data : List Nat)
    (h : st.isInitialized = false) : decode st data = st := by
  unfold decode
  simp [h]

/-- Witness for C10 at the freshly constructed decoder and a payload-carrying chunk. -/
theorem C10_witness :
    initState.isInitialized = false ∧ decode initState [0, 0, 1, 0x65] = initState :=
  ⟨rfl, C10_decode_before_init_is_noop initState [0, 0, 1, 0x65] rfl⟩

/-! ## Claim C7 -/

/-- C7: after any `decode` call on an initialized decoder the accumulator holds at most
512 KiB; when the scan loop leaves more than the cap, the warning is signaled and only
the newest 256 KiB (a suffix — the oldest bytes are discarded) is kept.  Feeding any
stream of zero bytes is a special case of `data`; termination is by construction
(`processLoop` is fuel-bounded). -/
theorem C7_accumulator_cap (st : DecoderState) (data : List Nat)
    (h : st.isInitialized = true) :
    (decode st data).buffer.length ≤ 512 * 1024 ∧
    (512 * 1024 < (midOf st data).buffer.length →
      (decode st data).warned = true ∧
      (decode st data).buffer =
        (midOf st data).buffer.drop ((midOf st data).buffer.length - 256 * 1024)) := by
  have hd : decode st data
      = processBuffer { st with frameCount := st.frameCount + 1, buffer := st.buffer ++ data } := by
    unfold decode
    simp [h]
  rw [hd]
  unfold processBuffer midOf
  dsimp only
  constructor
  · split
    · simp only [List.length_drop]
      omega
    · rename_i hle
      omega
  · intro hover
    split
    · constructor
      · dsimp only
      · dsimp only
    · rename_i hnot
      exact absurd hover hnot

/-- Witness for C7 on an initialized decoder fed three zero bytes. -/
theorem C7_witness :
    (init initState).isInitialized = true ∧
    ((decode (init initState) [0, 0, 0]).buffer.length ≤ 512 * 1024 ∧
     (512 * 1024 < (midOf (init initState) [0, 0, 0]).buffer.length →
       (decode (init initState) [0, 0, 0]).warned = true ∧
       (decode (init initState) [0, 0, 0]).buffer =
         (midOf (init initState) [0, 0, 0]).buffer.drop
           ((midOf (init initState) [0, 0, 0]).buffer.length - 256 * 1024))) :=
  ⟨rfl, C7_accumulator_cap (init initState) [0, 0, 0] rfl⟩

/-! ## Claim C9 -/

/-- C9: each `decode` call hands at most 100 NAL units to the classifier (the scan loop
is bounded by `maxIterations = 100`); on a 102-unit stream fed as one chunk exactly 100
units are processed, the remaining two complete units stay in the accumulator, and the
next `decode` call (even with no new bytes) dispatches the 101st. -/
theorem C9_per_call_unit_bound :
    (∀ (st : DecoderState) (data : List Nat),
      (decode st data).handledUnits.length ≤ st.handledUnits.length + 100) ∧
    (decode (init initState) unitSeq102).handledUnits.length = 100 ∧
    (decode (init initState) unitSeq102).buffer = [0, 0, 1, 9, 0, 0, 1, 9] ∧
    (decode (decode (init initState) unitSeq102) []).handledUnits.length = 101 := by
  refine ⟨?_, by decide, by decide, by decide⟩
  intro st data
  unfold decode
  split
  · have hp := processBuffer_handled_le
      { st with frameCount := st.frameCount + 1, buffer := st.buffer ++ data }
    exact le_trans hp (by dsimp only; omega)
  · omega

/-! ## Claim C3 -/

/-- C3: whenever the configuration record is built from a stored SPS and PPS (each a
detected 3- or 4-byte start code followed by its payload), the record handed to
`configure` is exactly: 0x01; SPS payload bytes 1,2,3; 0xFF; 0xE1; 2-byte big-endian
SPS length; the SPS payload; 0x01; 2-byte big-endian PPS length; the PPS payload. -/
theorem C3_config_record_layout (st : DecoderState) (sc1 sc2 spsPay ppsPay : List Nat)
    (h1 : sc1 = [0, 0, 1] ∨ sc1 = [0, 0, 0, 1]) (h2 : sc2 = [0, 0, 1] ∨ sc2 = [0, 0, 0, 1])
    (hs : st.sps = some (sc1 ++ spsPay)) (hp : st.pps = some (sc2 ++ ppsPay))
    (hv : st.videoDecoder = true) :
    (configureDecoder st).configureCalls = st.configureCalls ++
      [[1, spsPay.getD 1 0, spsPay.getD 2 0, spsPay.getD 3 0, 0xFF, 0xE1,
        spsPay.length / 256 % 256, spsPay.length % 256] ++ spsPay ++
       [1, ppsPay.length / 256 % 256, ppsPay.length % 256] ++ ppsPay] := by
  unfold configureDecoder
  simp only [hs, hp]
  rcases h1 with rfl | rfl <;> rcases h2 with rfl | rfl <;> simp [hv, buildAvcC]

/-- Witness for C3 on the payloads from the spec's worked example:
SPS `[0x67, 0x42, 0x00, 0x1E]`, PPS `[0x68, 0xCE, 0x3C, 0x80]`. -/
theorem C3_witness :
    ({ init initState with
        sps := some ([0, 0, 1] ++ [0x67, 0x42, 0x00, 0x1E]),
        pps := some ([0, 0, 1] ++ [0x68, 0xCE, 0x3C, 0x80]) } : DecoderState).videoDecoder
      = true ∧
    (configureDecoder
      { init initState with
        sps := some ([0, 0, 1] ++ [0x67, 0x42, 0x00, 0x1E]),
        pps := some ([0, 0, 1] ++ [0x68, 0xCE, 0x3C, 0x80]) }).configureCalls =
      [[0x01, 0x42, 0x00, 0x1E, 0xFF, 0xE1, 0x00, 0x04, 0x67, 0x42, 0x00, 0x1E,
        0x01, 0x00, 0x04, 0x68, 0xCE, 0x3C, 0x80]] :=
  ⟨rfl, by
    have h := C3_config_record_layout
      { init initState with
        sps := some ([0, 0, 1] ++ [0x67, 0x42, 0x00, 0x1E]),
        pps := some ([0, 0, 1] ++ [0x68, 0xCE, 0x3C, 0x80]) }
      [0, 0, 1] [0, 0, 1] [0x67, 0x42, 0x00, 0x1E] [0x68, 0xCE, 0x3C, 0x80]
      (Or.inl rfl) (Or.inl rfl) rfl rfl rfl
    simpa using h⟩

/-! ## Claim C4 -/

/-- C4: every payload unit (type 1 or 5) dispatched while configured is converted by
stripping its per-unit detected start code and prepending the 4-byte big-endian length
of the remaining header+payload bytes, which are passed through unchanged. -/
theorem C4_annexb_to_avcc (st : DecoderState) (u : List Nat)
    (hc : st.isConfigured = true) (hv : st.videoDecoder = true)
    (ht : unitType u = 1 ∨ unitType u = 5) :
    (handleNalUnit st u).decodeCalls = st.decodeCalls ++
      [(unitType u == 5,
        beLen4 (u.length - unitStartCodeLen u) ++ u.drop (unitStartCodeLen u))] := by
  unfold handleNalUnit
  rcases ht with h | h <;> simp [h, hc, hv]

/-- Witness for C4 on the spec's example unit `[00 00 01][65 AA BB CC]`, whose
converted form is `[00 00 00 04][65 AA BB CC]`. -/
theorem C4_witness :
    ({ init initState with isConfigured := true } : DecoderState).isConfigured = true ∧
    ({ init initState with isConfigured := true } : DecoderState).videoDecoder = true ∧
    (unitType [0, 0, 1, 0x65, 0xAA, 0xBB, 0xCC] = 1 ∨
      unitType [0, 0, 1, 0x65, 0xAA, 0xBB, 0xCC] = 5) ∧
    (handleNalUnit { init initState with isConfigured := true }
        [0, 0, 1, 0x65, 0xAA, 0xBB, 0xCC]).decodeCalls =
      [(true, [0x00, 0x00, 0x00, 0x04, 0x65, 0xAA, 0xBB, 0xCC])] :=
  ⟨rfl, rfl, Or.inr (by decide), by
    have h := C4_annexb_to_avcc { init initState with isConfigured := true }
      [0, 0, 1, 0x65, 0xAA, 0xBB, 0xCC] rfl rfl (Or.inr (by decide))
    simpa using h⟩

/-! ## Claim C5 -/

/-- C5: when a new SPS (resp. PPS) arrives while the counterpart is stored, the stored
unit is replaced by the new one (latest pair wins) and a further `configure` call is
issued whose record is built from the replaced pair — the new unit's payload, not the
old one's. -/
theorem C5_config_replacement (st : DecoderState) (u : List Nat)
    (hv : st.videoDecoder = true) :
    (∀ pp, st.pps = some pp → unitType u = 7 →
      (handleNalUnit st u).sps = some u ∧ (handleNalUnit st u).isConfigured = true ∧
      (handleNalUnit st u).configureCalls = st.configureCalls ++
        [buildAvcC (u.drop (if u.getD 2 0 == 1 then 3 else 4))
                   (pp.drop (if pp.getD 2 0 == 1 then 3 else 4))]) ∧
    (∀ sp, st.sps = some sp → unitType u = 8 →
      (handleNalUnit st u).pps = some u ∧ (handleNalUnit st u).isConfigured = true ∧
      (handleNalUnit st u).configureCalls = st.configureCalls ++
        [buildAvcC (sp.drop (if sp.getD 2 0 == 1 then 3 else 4))
                   (u.drop (if u.getD 2 0 == 1 then 3 else 4))]) := by
  constructor
  · intro pp hpp ht
    unfold handleNalUnit configureDecoder
    simp [ht, hpp, hv]
  · intro sp hsp ht
    unfold handleNalUnit configureDecoder
    simp [ht, hsp, hv]

/-- Witness for C5: a second, different SPS replacing the first and re-triggering
`configure` with the new payload. -/
theorem C5_witness :
    ({ init initState with
        isConfigured := true,
        sps := some [0, 0, 1, 0x67, 0x42, 0, 0x1E],
        pps := some [0, 0, 1, 0x68, 0xCE] } : DecoderState).videoDecoder = true ∧
    ({ init initState with
        isConfigured := true,
        sps := some [0, 0, 1, 0x67, 0x42, 0, 0x1E],
        pps := some [0, 0, 1, 0x68, 0xCE] } : DecoderState).pps = some [0, 0, 1, 0x68, 0xCE] ∧
    unitType [0, 0, 1, 0x67, 0x64, 0, 0x28] = 7 ∧
    (handleNalUnit
        { init initState with
          isConfigured := true,
          sps := some [0, 0, 1, 0x67, 0x42, 0, 0x1E],
          pps := some [0, 0, 1, 0x68, 0xCE] }
        [0, 0, 1, 0x67, 0x64, 0, 0x28]).sps = some [0, 0, 1, 0x67, 0x64, 0, 0x28] ∧
    (handleNalUnit
        { init initState with
          isConfigured := true,
          sps := some [0, 0, 1, 0x67, 0x42, 0, 0x1E],
          pps := some [0, 0, 1, 0x68, 0xCE] }
        [0, 0, 1, 0x67, 0x64, 0, 0x28]).configureCalls =
      [[1, 0x64, 0, 0x28, 0xFF, 0xE1, 0, 4, 0x67, 0x64, 0, 0x28, 1, 0, 2, 0x68, 0xCE]] := by
  refine ⟨rfl, rfl, by decide, ?_, ?_⟩
  · exact ((C5_config_replacement
      { init initState with
        isConfigured := true,
        sps := some [0, 0, 1, 0x67, 0x42, 0, 0x1E],
        pps := some [0, 0, 1, 0x68, 0xCE] }
      [0, 0, 1, 0x67, 0x64, 0, 0x28] rfl).1
      [0, 0, 1, 0x68, 0xCE] rfl (by decide)).1
  · have h := ((C5_config_replacement
      { init initState with
        isConfigured := true,
        sps := some [0, 0, 1, 0x67, 0x42, 0, 0x1E],
        pps := some [0, 0, 1, 0x68, 0xCE] }
      [0, 0, 1, 0x67, 0x64, 0, 0x28] rfl).1
      [0, 0, 1, 0x68, 0xCE] rfl (by decide)).2.2
    simpa using h

/-! ## Claim C6 (corrected) -/

/-- C6 counterexample: the SPS stored from the stream below has payload `[0x67]`,
shorter than 4 bytes, yet `configureDecoder` does not fail — it issues a `configure`
call (profile/compatibility/level read past the payload as 0) and marks the decoder
configured, contradicting the claim that the build fails and the state stays awaiting. -/
theorem C6_counterexample :
    (decode (init initState) [0,0,1,0x67, 0,0,1,0x68, 0,0,1,0x68]).isConfigured = true ∧
    (decode (init initState) [0,0,1,0x67, 0,0,1,0x68, 0,0,1,0x68]).configureCalls =
      [[1, 0, 0, 0, 0xFF, 0xE1, 0, 1, 0x67, 1, 0, 1, 0x68]] := by decide

/-- C6 amended: `configureDecoder` performs no minimum-length validation at all.
It skips configuration only when the SPS, the PPS or the engine handle is missing;
whenever all three are present it unconditionally builds the record (reading 0 for
profile/compatibility/level bytes beyond a short SPS payload) and sets the configured
flag, regardless of payload lengths. -/
theorem C6_no_min_length_validation (st : DecoderState) :
    ((st.sps = none ∨ st.pps = none ∨ st.videoDecoder = false) → configureDecoder st = st) ∧
    (∀ sp pp, st.sps = some sp → st.pps = some pp → st.videoDecoder = true →
      (configureDecoder st).isConfigured = true ∧
      (configureDecoder st).configureCalls = st.configureCalls ++
        [buildAvcC (sp.drop (if sp.getD 2 0 == 1 then 3 else 4))
                   (pp.drop (if pp.getD 2 0 == 1 then 3 else 4))]) := by
  constructor
  · intro h
    unfold configureDecoder
    rcases h with h | h | h
    · simp [h]
    · cases hs : st.sps <;> simp [h, hs]
    · cases hs : st.sps <;> cases hp : st.pps <;> simp [h, hs, hp]
  · intro sp pp hs hp hv
    unfold configureDecoder
    simp [hs, hp, hv]

/-- Witness for C6 (amended) at a stored 1-byte SPS payload. -/
theorem C6_witness :
    ({ init initState with sps := some [0, 0, 1, 0x67], pps := some [0, 0, 1, 0x68] }
      : DecoderState).videoDecoder = true ∧
    (configureDecoder
        { init initState with
          sps := some [0, 0, 1, 0x67], pps := some [0, 0, 1, 0x68] }).isConfigured = true ∧
    (configureDecoder
        { init initState with
          sps := some [0, 0, 1, 0x67], pps := some [0, 0, 1, 0x68] }).configureCalls =
      [[1, 0, 0, 0, 0xFF, 0xE1, 0, 1, 0x67, 1, 0, 1, 0x68]] := by
  have h := (C6_no_min_length_validation
    { init initState with sps := some [0, 0, 1, 0x67], pps := some [0, 0, 1, 0x68] }).2
    [0, 0, 1, 0x67] [0, 0, 1, 0x68] rfl rfl rfl
  exact ⟨rfl, h.1, by simpa using h.2⟩

/-! ## Claim C8 -/

/-- C8: `clear()` is callable in any state; afterwards the accumulator is empty, the
configuration pair is gone, the configured flag is false, the engine handle is
recreated, and any payload unit (type 1 or 5) handled next is dropped — not passed to
the engine — until a fresh configuration succeeds. -/
theorem C8_clear_requires_reconfiguration (st : DecoderState) (u : List Nat) :
    (clear st).buffer = [] ∧ (clear st).sps = none ∧ (clear st).pps = none ∧
    (clear st).isConfigured = false ∧ (clear st).videoDecoder = true ∧
    ((unitType u = 1 ∨ unitType u = 5) →
      (handleNalUnit (clear st) u).decodeCalls = (clear st).decodeCalls) := by
  refine ⟨rfl, rfl, rfl, rfl, rfl, ?_⟩
  intro ht
  unfold handleNalUnit
  rcases ht with h | h <;> simp [h, clear]

/-- Witness for C8: a keyframe accepted by the configured pre-reset state is dropped
after `clear`. -/
theorem C8_witness :
    (decode (init initState)
      [0,0,1,0x67,0x42,0,0x1E, 0,0,1,0x68,0xCE, 0,0,1,9]).isConfigured = true ∧
    (handleNalUnit
      (decode (init initState) [0,0,1,0x67,0x42,0,0x1E, 0,0,1,0x68,0xCE, 0,0,1,9])
      [0, 0, 1, 0x65, 0xAA]).decodeCalls = [(true, [0, 0, 0, 2, 0x65, 0xAA])] ∧
    (clear (decode (init initState)
      [0,0,1,0x67,0x42,0,0x1E, 0,0,1,0x68,0xCE, 0,0,1,9])).isConfigured = false ∧
    (handleNalUnit
      (clear (decode (init initState) [0,0,1,0x67,0x42,0,0x1E, 0,0,1,0x68,0xCE, 0,0,1,9]))
      [0, 0, 1, 0x65, 0xAA]).decodeCalls =
      (clear (decode (init initState)
        [0,0,1,0x67,0x42,0,0x1E, 0,0,1,0x68,0xCE, 0,0,1,9])).decodeCalls := by
  refine ⟨by decide, by decide, by decide, ?_⟩
  exact (C8_clear_requires_reconfiguration
    (decode (init initState) [0,0,1,0x67,0x42,0,0x1E, 0,0,1,0x68,0xCE, 0,0,1,9])
    [0, 0, 1, 0x65, 0xAA]).2.2.2.2.2 (Or.inr (by decide))

/-! ## Claim C1 (corrected) -/

/-- C1 counterexample: the stream `dupCfgStream` contains exactly one distinct
(SPS,PPS) pair, re-sent once; the decoder issues `configure` twice, with the identical
record both times — so `configure` does not happen exactly once per distinct pair
(it fires on every configuration-unit arrival whose counterpart is stored). -/
theorem C1_counterexample :
    (decode (init initState) dupCfgStream).configureCalls.length = 2 ∧
    (decode (init initState) dupCfgStream).configureCalls.getD 0 [] =
      (decode (init initState) dupCfgStream).configureCalls.getD 1 [] := by decide

/-- C1 amended: payload units (type 1 or 5) never trigger `configure`; while the
decoder is unconfigured they are never passed to the engine, and once configured every
payload unit is converted and passed.  `configure` fires exactly when a configuration
unit (type 7 or 8) is handled while its counterpart is stored — hence once per arriving
configuration unit with a stored counterpart, not once per distinct (SPS,PPS) pair and
never once per payload unit.  The configured flag can only be set when both SPS and PPS
are stored, and this invariant is preserved by every `decode` call. -/
theorem C1_payload_gating (st : DecoderState) (u : List Nat)
    (hv : st.videoDecoder = true) :
    ((unitType u = 1 ∨ unitType u = 5) →
      (handleNalUnit st u).configureCalls = st.configureCalls ∧
      (st.isConfigured = false → (handleNalUnit st u).decodeCalls = st.decodeCalls) ∧
      (st.isConfigured = true →
        (handleNalUnit st u).decodeCalls = st.decodeCalls ++
          [(unitType u == 5,
            beLen4 (u.length - unitStartCodeLen u) ++ u.drop (unitStartCodeLen u))])) ∧
    ((handleNalUnit st u).configureCalls ≠ st.configureCalls ↔
      (unitType u = 7 ∧ st.pps.isSome = true) ∨ (unitType u = 8 ∧ st.sps.isSome = true)) ∧
    (CfgInv st → ∀ data, CfgInv (decode st data)) := by
  refine ⟨?_, ?_, fun h data => decode_cfgInv h data⟩
  · intro ht
    refine ⟨?_, ?_, ?_⟩
    · exact handleNalUnit_configureCalls_same st u (by
        rcases ht with h | h <;> simp [h])
    · intro hc0
      unfold handleNalUnit
      rcases ht with h | h <;> simp [h, hc0]
    · intro hc1
      unfold handleNalUnit
      rcases ht with h | h <;> simp [h, hc1, hv]
  · constructor
    · intro hne
      by_contra hnot
      exact hne (handleNalUnit_configureCalls_same st u hnot)
    · intro h
      obtain ⟨r, hr⟩ := handleNalUnit_configureCalls_grow st u hv h
      rw [hr]
      exact append_singleton_ne _ _

/-- Witness for C1 (amended): payload gating at the fresh engine-backed state, the
configure-trigger characterization at a payload unit, and invariant preservation along
`dupCfgStream`. -/
theorem C1_witness :
    (init initState).videoDecoder = true ∧
    (handleNalUnit (init initState) [0, 0, 1, 0x65, 0xAA]).decodeCalls = [] ∧
    (handleNalUnit (init initState) [0, 0, 1, 0x65, 0xAA]).configureCalls = [] ∧
    ¬((handleNalUnit (init initState) [0, 0, 1, 0x65, 0xAA]).configureCalls ≠
        (init initState).configureCalls) ∧
    CfgInv (decode (init initState) dupCfgStream) := by
  have h := C1_payload_gating (init initState) [0, 0, 1, 0x65, 0xAA] rfl
  refine ⟨rfl, ?_, ?_, ?_, ?_⟩
  · exact (h.1 (Or.inr (by decide))).2.1 rfl
  · exact (h.1 (Or.inr (by decide))).1
  · intro hne
    exact absurd (h.2.1.mp hne) (by decide)
  · exact h.2.2 (fun hc => absurd hc (by decide)) dupCfgStream

/-! ## Claim C2 (corrected) -/

/-- C2 counterexample: a stream of `k = 1` well-formed unit, fed as a single chunk,
yields zero classified units, not `k = 1`: the final unit of any stream stays in the
accumulator because its terminating start code never appears.  (`unitBytes
⟨false, [0x65]⟩ = [0,0,1,0x65]` is one well-formed 3-byte-start-code unit.) -/
theorem C2_counterexample :
    wfBody [0x65] ∧
    (decode (init initState) (unitBytes ⟨false, [0x65]⟩)).handledUnits = [] := by
  constructor
  · decide
  · decide

/-- C2 amended: for every stream of `k` well-formed start-code-delimited units
(nonempty bodies with no two consecutive zero bytes and no trailing zero byte), with
`k ≤ 101` and total length at most 512 KiB, feeding the stream in chunks at arbitrary
boundaries — including splits inside a start code, a header byte, or a payload, and
including the whole stream as the single chunk — always yields the identical ordered
sequence of classified NAL units, namely exactly the first `k - 1` units with
byte-identical contents; the final unit remains buffered awaiting its terminating
start code. -/
theorem C2_chunked_scan_agreement (units : List NalSpec) (chunks : List (List Nat))
    (hwf : ∀ u ∈ units, wfBody u.body)
    (hk : units.length ≤ 101)
    (hN : (streamOf units).length ≤ 512 * 1024)
    (hchunks : chunks.flatten = streamOf units) :
    (feedAll (init initState) chunks).handledUnits = (units.map unitBytes).dropLast := by
  have h0 : ¬ visAt units 0 0 := by
    intro hv
    have h2 := hv.2
    rcases scBytes_length_bounds (units.getD 0 ⟨false, []⟩) with ⟨h3, _⟩
    omega
  have h1 : ¬ visAt units 1 0 := fun hv => h0 (visAt_succ_imp units hwf hv)
  obtain ⟨t', ht'ge, ht'pre, ht'nv, ht'hand⟩ :=
    feedAll_scan units hwf hk hN chunks 0 0 (init initState)
      (by simpa using hchunks) (Nat.zero_le _) rfl (by simp [init, initState, posOf_zero])
      (Or.inr ⟨rfl, h0⟩) h1
  rw [ht'hand]
  have hih : (init initState).handledUnits = [] := rfl
  rw [hih, List.nil_append, List.drop_zero, Nat.sub_zero]
  by_cases hk0 : units.length = 0
  · have hnil : units = [] := List.length_eq_zero.mp hk0
    subst hnil
    simp
  · have hvisN : ∀ i, i < units.length → visAt units i (streamOf units).length := by
      intro i hi
      refine ⟨hi, ?_⟩
      have hpos := posOf_succ_of_lt units i hi
      have hlu := length_unitBytes (units.getD i ⟨false, []⟩)
      have hbody : 1 ≤ (units.getD i ⟨false, []⟩).body.length :=
        List.length_pos.mpr (hwf _ (getD_mem hi)).1
      have hle := posOf_le units (i + 1)
      omega
    have ht'k : t' = units.length - 1 := by
      rcases ht'pre with hv | ⟨ht0, hnv⟩
      · have h1' : t' < units.length := hv.1
        by_contra hne
        exact ht'nv (hvisN _ (by omega))
      · exact absurd (hvisN 0 (by omega)) hnv
    rw [ht'k, List.map_take, List.dropLast_eq_take, List.length_map]

/-- Witness for C2 (amended): three well-formed units (the middle one with a 4-byte
start code) fed in four chunks whose boundaries split both start codes; exactly the
first two units are classified, byte-identically. -/
theorem C2_witness :
    (∀ u ∈ ([⟨false, [0x65]⟩, ⟨true, [0x41, 7]⟩, ⟨false, [9]⟩] : List NalSpec),
      wfBody u.body) ∧
    ([[0, 0], [1, 0x65, 0, 0], [0, 1, 0x41, 7, 0, 0, 1], [9]] : List (List Nat)).flatten
      = streamOf [⟨false, [0x65]⟩, ⟨true, [0x41, 7]⟩, ⟨false, [9]⟩] ∧
    (feedAll (init initState)
        [[0, 0], [1, 0x65, 0, 0], [0, 1, 0x41, 7, 0, 0, 1], [9]]).handledUnits
      = [[0, 0, 1, 0x65], [0, 0, 0, 1, 0x41, 7]] := by
  refine ⟨by decide, by decide, ?_⟩
  have h := C2_chunked_scan_agreement
    [⟨false, [0x65]⟩, ⟨true, [0x41, 7]⟩, ⟨false, [9]⟩]
    [[0, 0], [1, 0x65, 0, 0], [0, 1, 0x41, 7, 0, 0, 1], [9]]
    (by decide) (by decide) (by decide) (by decide)
  rw [h]
  decide


